import Mathlib

/-!
Verification of the test-strip colorimetric decoding pipeline
(`strips/process_image.py`): band sampling (`get_band_color`, `get_colors`),
analyte resolution (`is_white_gray`, `closest_color_index`, `map_to_value`,
`get_values`, `test_data`), and the orchestration / error behaviour of
`process_image`.

Modelling conventions:
* An image as loaded by `cv2.imread` is a row-major grid of B,G,R pixel
  triples; channel values are the nonnegative integers stored in the raster
  (uint8 in practice, but nothing in the sampled code depends on the bound),
  so a pixel is `Nat × Nat × Nat` in B,G,R order and an image is a list of
  rows.
* Python slicing `xs[a:b]` with `0 ≤ a, b` is `(xs.drop a).take (b - a)`
  (with truncated `Nat` subtraction, matching the empty slice when `b ≤ a`).
* `numpy` means followed by `int(...)` truncate the nonnegative mean toward
  zero, i.e. floor; for nonnegative integer data this is `Nat` division
  `sum / count`.
* Python's unbounded `int` subtraction in color distances is `Int`.
* Calibration values (floats that are only ever stored and returned, never
  arithmetically combined) are represented as `ℚ`.
* Python exceptions are modelled with `Except`; a raised exception is an
  `Except.error` value carrying the exception kind and message.
-/

namespace Strips

/-- A pixel of a loaded image, in the B,G,R channel order `cv2.imread`
produces. -/
abbrev Pix : Type := Nat × Nat × Nat

/-- A color triple in R,G,B order, as used after the `[:, ::-1]` flip in
`get_band_color` and throughout `get_values` / `test_data`. -/
abbrev Color : Type := Nat × Nat × Nat

/-- A raster image: a list of rows of B,G,R pixels.  `numpy` rasters are
rectangular; width is read off the first row as `image.shape[1]` is. -/
abbrev Image : Type := List (List Pix)

/-- `image.shape[0]`: the number of rows. -/
def imgH (img : Image) : Nat := img.length

/-- `image.shape[1]`: the width, read from the first row (0 for an empty
raster, as `numpy` reports for a 0-row slice of a 0-width image; the sampled
code only uses it through clamped slicing). -/
def imgW (img : Image) : Nat :=
  match img with
  | [] => 0
  | r :: _ => r.length

/-- Python slice `xs[a:b]` for nonnegative bounds: drop `a`, take `b - a`
(truncated subtraction gives the empty slice when `b ≤ a`, and `take`/`drop`
clamp at the length exactly as Python slicing does). -/
def pySlice {α : Type} (xs : List α) (a b : Nat) : List α :=
  (xs.drop a).take (b - a)

/-- `x_start = max(0, center_x - band_width // 2)` — `Nat` subtraction
already clamps at 0, which is what the `max(0, ·)` achieves for the
nonnegative inputs the code passes. -/
def band_x_start (center_x band_width : Nat) : Nat :=
  center_x - band_width / 2

/-- `x_end = min(w, center_x + band_width // 2)`. -/
def band_x_end (w center_x band_width : Nat) : Nat :=
  min w (center_x + band_width / 2)

/-- The flattened pixel list of `band = image[y_start:y_end, x_start:x_end]`,
in row-major order, exactly the element order of `band.reshape(-1, 3)`.
`band.size == 0` iff this list is empty (for the rectangular rasters `numpy`
produces). -/
def bandPixels (image : Image) (y_start y_end x_start x_end : Nat) :
    List Pix :=
  ((pySlice image y_start y_end).map (fun row => pySlice row x_start x_end)).flatten

/-- The `[:, ::-1]` channel flip: B,G,R pixel to R,G,B color. -/
def bgrToRgb (p : Pix) : Color := (p.2.2, p.2.1, p.1)

/-- `np.all(pixels < white_thresh, axis=1)`: every channel strictly below the
white threshold. -/
def belowThresh (white_thresh : Nat) (c : Color) : Bool :=
  decide (c.1 < white_thresh) && decide (c.2.1 < white_thresh) &&
    decide (c.2.2 < white_thresh)

/-- `valid_pixels = pixels[mask]` (lines 253–255): the band's pixels in
R,G,B channel order, keeping those with every channel below the white
threshold, in raster order. -/
def qualifying (image : Image) (y_start y_end center_x band_width
    white_thresh : Nat) : List Color :=
  ((bandPixels image y_start y_end (band_x_start center_x band_width)
      (band_x_end (imgW image) center_x band_width)).map bgrToRgb).filter
    (belowThresh white_thresh)

/-- The red-channel total of a pixel list (`np.mean(..., axis=0)` is this
divided by the count). -/
def sumR (v : List Color) : Nat := (v.map (fun c => c.1)).sum

/-- The green-channel total of a pixel list. -/
def sumG (v : List Color) : Nat := (v.map (fun c => c.2.1)).sum

/-- The blue-channel total of a pixel list. -/
def sumB (v : List Color) : Nat := (v.map (fun c => c.2.2)).sum

/-- `get_band_color(image, y_start, y_end, center_x, band_width=15,
white_thresh=240)` from `strips/process_image.py` (lines 244–261).  Returns
the representative color and the band rectangle
`(x_start, y_start, x_end, y_end)`.

* Empty band region: `(0, 0, 0)`.
* No pixel with all channels below `white_thresh`: the white sentinel
  `(255, 255, 255)`.
* Otherwise the per-channel mean of the qualifying pixels;
  `int(np.mean(...))` truncates the nonnegative float mean toward zero, so
  each channel is the floor `sum / count` (`Nat` division). -/
def get_band_color (image : Image) (y_start y_end center_x band_width
    white_thresh : Nat) : Color × (Nat × Nat × Nat × Nat) :=
  let x_start := band_x_start center_x band_width
  let x_end := band_x_end (imgW image) center_x band_width
  let band := bandPixels image y_start y_end x_start x_end
  if band = [] then
    ((0, 0, 0), (x_start, y_start, x_end, y_end))
  else
    let valid_pixels :=
      qualifying image y_start y_end center_x band_width white_thresh
    if valid_pixels = [] then
      ((255, 255, 255), (x_start, y_start, x_end, y_end))
    else
      let n := valid_pixels.length
      ((sumR valid_pixels / n, sumG valid_pixels / n, sumB valid_pixels / n),
       (x_start, y_start, x_end, y_end))

/-- `num_sections = 52` (line 272). -/
def num_sections : Nat := 52

/-- Python `range(start, stop, step)` for a positive step: the arithmetic
progression from `start` of length `⌈(stop - start) / step⌉`. -/
def pyRange (start stop step : Nat) : List Nat :=
  List.range' start ((stop - start + step - 1) / step) step

/-- One entry of the list `get_colors` builds (lines 285–290).  The
`hex` / `color_name` display fields — derived from the sampled `rgb` via the
`webcolors` CSS3 table and read by nothing downstream — are omitted; the
fields used by the rest of the pipeline are the section index and the
sampled `rgb`. -/
structure Band where
  sectionIdx : Nat
  rgb : Color
deriving DecidableEq

/-- `get_colors` from `strips/process_image.py` (lines 263–292), applied to
the already-loaded raster (the path-existence and decode checks of the
Python function are modelled separately in `get_colors_io`).  Samples one
band for every section index `i` in `range(3, num_sections + 1, 3)` with
`y_start = (i - 1) * section_height`, `y_end = min(i * section_height,
height)`, at the horizontal midpoint, with the default `band_width = 15`
and `white_thresh = 240`. -/
def get_colors (image : Image) : List Band :=
  let height := imgH image
  let width := imgW image
  let section_height := height / num_sections
  let center_x := width / 2
  (pyRange 3 (num_sections + 1) 3).map (fun i =>
    { sectionIdx := i,
      rgb := (get_band_color image ((i - 1) * section_height)
        (min (i * section_height) height) center_x 15 240).1 })

/-- One analyte's calibration entry: the value ramp and the paired reference
colors. -/
structure CalEntry where
  values : List ℚ
  colors : List Color
deriving DecidableEq

/-- `test_data` from `strips/process_image.py` (lines 28–93), as the
insertion-ordered association list the Python dict is (keys are pairwise
distinct, so iteration order and lookup agree with this list). -/
def test_data : List (String × CalEntry) := [
  ("Total Alkalinity",
   ⟨[240, 180, 120, 80, 40, 0],
    [(40,79,58),(55,91,56),(91,116,61),(117,123,63),(127,127,69),(175,151,71)]⟩),
  ("PH",
   ⟨[8.4, 7.8, 7.6, 7.2, 6.8, 6.2],
    [(223,53,35),(224,71,33),(219,94,46),(209,110,44),(191,122,57),(169,130,65)]⟩),
  ("Hardness",
   ⟨[425, 250, 100, 50, 25, 0],
    [(110,58,87),(92,62,93),(72,72,108),(63,79,121),(52,76,111),(30,67,100)]⟩),
  ("Hydrogen Sulfide",
   ⟨[10, 5, 3, 2, 1, 0.5, 0],
    [(116,57,34),(167,104,69),(171,118,79),(216,176,116),(223,198,144),(195,198,181),(180,180,180)]⟩),
  ("Iron",
   ⟨[5.0, 3.0, 1.0, 0.5, 0.3, 0.0],
    [(236,71,35),(231,95,37),(224,120,73),(215,145,117),(193,159,155),(180,180,180)]⟩),
  ("Copper",
   ⟨[5, 2, 1, 0.5, 0.2, 0],
    [(212,111,119),(233,128,115),(226,140,106),(215,147,110),(197,163,128),(177,175,143)]⟩),
  ("Lead",
   ⟨[50, 30, 15, 5, 0],
    [(190,67,54),(203,80,60),(209,104,74),(190,115,78),(173,142,80)]⟩),
  ("Manganese",
   ⟨[5.0, 2.0, 1.0, 0.5, 0.1, 0.05, 0.0],
    [(143,49,76),(163,61,81),(179,73,75),(205,81,71),(210,99,75),(192,130,99),(175,167,95)]⟩),
  ("Total Chlorine",
   ⟨[20, 10, 5, 3, 1, 0.5, 0],
    [(66,128,120),(92,149,133),(132,167,126),(150,174,125),(165,183,133),(186,200,165),(163,179,158)]⟩),
  ("Free Chlorine",
   ⟨[20, 10, 5, 3, 1, 0.5, 0],
    [(74,128,130),(72,146,147),(114,164,158),(128,169,163),(147,179,179),(159,191,197),(180,180,180)]⟩),
  ("Nitrate",
   ⟨[500, 250, 100, 50, 25, 10, 0],
    [(221,65,90),(233,90,108),(240,123,127),(232,138,139),(215,165,166),(206,211,219),(180,180,180)]⟩),
  ("Nitrite",
   ⟨[80, 40, 20, 10, 5, 1, 0],
    [(209,44,77),(233,75,105),(237,98,113),(231,121,129),(215,146,157),(204,193,199),(180,180,180)]⟩),
  ("Sulfate",
   ⟨[1600, 1200, 800, 400, 200, 0],
    [(120,147,157),(138,150,152),(133,125,137),(128,123,150),(128,117,158),(103,88,137)]⟩),
  ("Zinc",
   ⟨[100, 50, 30, 10, 5, 0],
    [(82,101,141),(103,92,127),(139,89,114),(139,82,109),(150,82,98),(134,73,96)]⟩),
  ("Sodium Chloride",
   ⟨[2000, 1000, 500, 250, 100, 0],
    [(248,216,141),(251,206,139),(200,119,92),(160,78,77),(145,69,73),(114,63,62)]⟩),
  ("Fluoride",
   ⟨[100, 50, 25, 10, 4, 0],
    [(246,154,41),(253,143,48),(240,113,54),(220,93,59),(190,59,65),(135,53,65)]⟩)]

/-- `is_white_gray(rgb, threshold=170)` (lines 295–297): every channel
strictly above the threshold. -/
def is_white_gray (rgb : Color) (threshold : Nat) : Bool :=
  decide (rgb.1 > threshold) && decide (rgb.2.1 > threshold) &&
    decide (rgb.2.2 > threshold)

/-- `sum((a - b) ** 2 for a, b in zip(rgb, ref_rgb))` — squared Euclidean
RGB distance with Python's unbounded integer subtraction. -/
def sqDist (a b : Color) : ℤ :=
  ((a.1 : ℤ) - b.1) ^ 2 + ((a.2.1 : ℤ) - b.2.1) ^ 2 +
    ((a.2.2 : ℤ) - b.2.2) ^ 2

/-- The loop of `closest_color_index` over the remaining distances, carrying
the running index `i`, the champion index `best` and the champion distance
`m`; the strict `diff < min_diff` comparison keeps the first occurrence of
the minimum. -/
def cciGo : List ℤ → Nat → Nat → ℤ → Nat × ℤ
  | [], _, best, m => (best, m)
  | d :: rest, i, best, m =>
    if d < m then cciGo rest (i + 1) i d else cciGo rest (i + 1) best m

/-- `closest_color_index(rgb, color_list)` (lines 299–307).  The Python loop
starts with `min_diff = float('inf')`, `closest_idx = 0`, so on a nonempty
list the first element always becomes the initial champion (every finite
distance is `< inf`), and an empty list yields index 0. -/
def closest_color_index (rgb : Color) (color_list : List Color) : Nat :=
  match color_list.map (sqDist rgb) with
  | [] => 0
  | d :: rest => (cciGo rest 1 0 d).1

/-- `map_to_value(index, values_list)` (lines 309–310): Python list
indexing; `none` models the `IndexError` raised by an out-of-range index. -/
def map_to_value (index : Nat) (values_list : List ℚ) : Option ℚ :=
  values_list[index]?

/-- A value stored in the result mapping: a numeric calibration value or
Python's `None`. -/
inductive PyVal where
  | num (v : ℚ)
  | none
deriving DecidableEq

/-- One iteration of the `get_values` result loop (lines 328–343) at 0-based
position `i`: pair the band with the `i`-th analyte of `test_data` (dict
iteration order = this list's order) when `i` is in range, otherwise emit
the synthetic `"Extra {i+1}"` entry with value `None`.  An out-of-range
calibration lookup (`map_to_value` misses) is the `IndexError` error
case. -/
def gv_entry (i : Nat) (c : Band) : Except String (String × PyVal) :=
  if h : i < test_data.length then
    let d := test_data.get ⟨i, h⟩
    let idx := closest_color_index c.rgb d.2.colors
    match map_to_value idx d.2.values with
    | some v => .ok (d.1, .num v)
    | Option.none => .error "IndexError"
  else
    .ok ("Extra " ++ toString (i + 1), .none)

/-- The `for i, color in enumerate(colors)` loop of `get_values`, building
the (insertion-ordered, distinct-keyed) result entries; the first raised
exception aborts the loop. -/
def gv_loop : Nat → List Band → Except String (List (String × PyVal))
  | _, [] => .ok []
  | i, c :: rest =>
    match gv_entry i c with
    | .error e => .error e
    | .ok entry =>
      match gv_loop (i + 1) rest with
      | .error e => .error e
      | .ok r => .ok (entry :: r)

/-- The in-place orientation step of `get_values` (lines 316–321): reverse
when the first band is white/gray; the `elif is_white_gray(colors[-1])`
branch and the final `else` are both `pass`, so any other nonempty list is
left as-is. -/
def gv_oriented (colors : List Band) : List Band :=
  match colors with
  | [] => []
  | c :: rest =>
    if is_white_gray c.rgb 170 then (c :: rest).reverse else c :: rest

/-- The state of the caller's list after `get_values` returns (or raises):
the possibly-reversed list with its last element removed by `colors.pop()`
(line 323); the empty list is returned before any mutation. -/
def gv_mutated (colors : List Band) : List Band :=
  match colors with
  | [] => []
  | _ :: _ => (gv_oriented colors).dropLast

/-- `get_values(colors)` (lines 312–345): empty input returns the empty
dict; otherwise orient, pop the trailing pad, and resolve each remaining
band positionally against `test_data`. -/
def get_values (colors : List Band) : Except String (List (String × PyVal)) :=
  match colors with
  | [] => .ok []
  | _ :: _ => gv_loop 0 (gv_mutated colors)

instance {ε α : Type} [DecidableEq ε] [DecidableEq α] :
    DecidableEq (Except ε α) := fun x y =>
  match x, y with
  | .ok a, .ok b =>
    if h : a = b then .isTrue (congrArg Except.ok h)
    else .isFalse (fun he => h (Except.ok.inj he))
  | .error a, .error b =>
    if h : a = b then .isTrue (congrArg Except.error h)
    else .isFalse (fun he => h (Except.error.inj he))
  | .ok _, .error _ => .isFalse (fun he => Except.noConfusion he)
  | .error _, .ok _ => .isFalse (fun he => Except.noConfusion he)

/-- The Python exception kinds observable from `process_image` and the
stages it calls. -/
inductive PyExc where
  | valueError (msg : String)
  | fileNotFoundError (msg : String)
  | unboundLocalError (varName : String)
  | indexError
deriving DecidableEq

/-- The observable outcomes of `crop_strip` (lines 192–224).  Its geometric
work goes through opaque `cv2` calls; what varies with the input image is
which of the guarded failure branches fires, or success with an output
path. -/
inductive CropOutcome where
  | loadFail (path : String)
  | noMainLines
  | noSecondaryKept
  | notEnoughPoints
  | noContours
  | success (outputPath : String)

/-- `crop_strip` as seen by its caller: each failure branch raises the
`ValueError` with the message of the corresponding `raise` in the source
(`load_image` line 99, lines 201, 207, `create_polygon` line 161,
`crop_to_strip` line 176); success returns the written output path. -/
def crop_strip_model (o : CropOutcome) : Except PyExc String :=
  match o with
  | .loadFail p => .error (.valueError ("Could not load image from " ++ p))
  | .noMainLines => .error (.valueError "No main lines detected")
  | .noSecondaryKept => .error (.valueError "No secondary lines kept")
  | .notEnoughPoints => .error (.valueError "Not enough intersection points")
  | .noContours => .error (.valueError "No valid contours found")
  | .success p => .ok p

/-- The outcome of the load checks at the top of `get_colors`
(lines 264–269): missing file, undecodable file, or a decoded raster. -/
inductive LoadOutcome where
  | fileMissing (path : String)
  | decodeFail
  | image (img : Image)

/-- `get_colors(image_path)` as seen by `process_image`: the guard failures
raise (`FileNotFoundError` line 265, `ValueError` line 269), otherwise the
pure sampling `get_colors` runs on the decoded raster. -/
def get_colors_io (o : LoadOutcome) : Except PyExc (List Band) :=
  match o with
  | .fileMissing p => .error (.fileNotFoundError ("Image file not found: " ++ p))
  | .decodeFail => .error (.valueError "Could not load image")
  | .image img => .ok (get_colors img)

/-- `get_values` with its only possible exception (`IndexError` from
`map_to_value`) mapped into the exception type of the caller. -/
def get_values_io (colors : List Band) :
    Except PyExc (List (String × PyVal)) :=
  match get_values colors with
  | .ok r => .ok r
  | .error _ => .error .indexError

/-- `process_image(base64_image)` (lines 348–369), parametrised by the
outcomes of its effectful stages: whether `base64.b64decode` succeeds, the
outcome of `crop_strip`, and the outcome of `get_colors`'s load.

The `try ... finally` cleanup (lines 358–369) is modelled faithfully:

* When `crop_strip` raises, the local `cropped_path` was never assigned, so
  the `finally` block's `os.path.exists(cropped_path)` itself raises
  `UnboundLocalError`, and in Python an exception raised inside a `finally`
  block supersedes the in-flight exception — the `ValueError` is replaced.
* When `crop_strip` succeeded, `cropped_path` is bound, the cleanup
  completes, and any exception from `get_colors` / `get_values` propagates
  unchanged. -/
def process_image (decodeOk : Bool) (cropO : CropOutcome)
    (loadO : LoadOutcome) : Except PyExc (List (String × PyVal)) :=
  if !decodeOk then
    .error (.valueError "Invalid base64 image")
  else
    match crop_strip_model cropO with
    | .error _ => .error (.unboundLocalError "cropped_path")
    | .ok _ =>
      match get_colors_io loadO with
      | .error e => .error e
      | .ok colors => get_values_io colors

/-- The error kinds the spec defines for the pipeline: decode failure (bad
base64, missing or undecodable file), no main line, no secondary line,
insufficient intersection points, no strip contour. -/
def defined_error (e : PyExc) : Bool :=
  match e with
  | .valueError m =>
    decide (m = "Invalid base64 image") ||
    decide (m = "Could not load image") ||
    m.startsWith "Could not load image from" ||
    decide (m = "No main lines detected") ||
    decide (m = "No secondary lines kept") ||
    decide (m = "Not enough intersection points") ||
    decide (m = "No valid contours found")
  | .fileNotFoundError _ => true
  | .unboundLocalError _ => false
  | .indexError => false

/-- Modelled from the spec's words for claim C8 only (the code under test is
`get_band_color`): the channel mean `s / n` "rounded to the nearest
integer", computed as round-half-up `(2s + n) / (2n)`, which agrees with
round-to-nearest whenever the mean is not an exact half. -/
def round_nearest (s n : Nat) : Nat := (2 * s + n) / (2 * n)

/-! ### Properties of the argmin loop of `closest_color_index` -/

/-- The running minimum never increases. -/
theorem cciGo_snd_le (ds : List ℤ) : ∀ (i best : Nat) (m : ℤ),
    (cciGo ds i best m).2 ≤ m := by
  induction ds with
  | nil => intro i best m; exact le_refl m
  | cons d rest ih =>
    intro i best m
    by_cases h : d < m
    · simp only [cciGo, if_pos h]
      exact le_trans (ih (i + 1) i d) (le_of_lt h)
    · simp only [cciGo, if_neg h]
      exact ih (i + 1) best m

/-- The final minimum is at most every distance scanned. -/
theorem cciGo_snd_le_get (ds : List ℤ) : ∀ (i best : Nat) (m : ℤ)
    (k : Nat) (hk : k < ds.length), (cciGo ds i best m).2 ≤ ds.get ⟨k, hk⟩ := by
  induction ds with
  | nil => intro i best m k hk; exact absurd hk (Nat.not_lt_zero k)
  | cons d rest ih =>
    intro i best m k hk
    by_cases h : d < m
    · simp only [cciGo, if_pos h]
      match k with
      | 0 => exact cciGo_snd_le rest (i + 1) i d
      | k + 1 => exact ih (i + 1) i d k (Nat.lt_of_succ_lt_succ hk)
    · simp only [cciGo, if_neg h]
      match k with
      | 0 => exact le_trans (cciGo_snd_le rest (i + 1) best m) (not_lt.mp h)
      | k + 1 => exact ih (i + 1) best m k (Nat.lt_of_succ_lt_succ hk)

/-- The result is either the initial champion unchanged, or a scanned
element that strictly improved on the initial minimum; in both cases the
returned index carries the returned minimum. -/
theorem cciGo_attained (ds : List ℤ) : ∀ (i best : Nat) (m : ℤ),
    ((cciGo ds i best m).1 = best ∧ (cciGo ds i best m).2 = m) ∨
    ∃ k, ∃ hk : k < ds.length, (cciGo ds i best m).1 = i + k ∧
      (cciGo ds i best m).2 = ds.get ⟨k, hk⟩ ∧ (cciGo ds i best m).2 < m := by
  induction ds with
  | nil => intro i best m; exact Or.inl ⟨rfl, rfl⟩
  | cons d rest ih =>
    intro i best m
    by_cases h : d < m
    · simp only [cciGo, if_pos h]
      rcases ih (i + 1) i d with ⟨h1, h2⟩ | ⟨k, hk, h1, h2, h3⟩
      · refine Or.inr ⟨0, Nat.succ_pos _, ?_, ?_, ?_⟩
        · simpa using h1
        · simpa using h2
        · rw [h2]; exact h
      · refine Or.inr ⟨k + 1, Nat.succ_lt_succ hk, ?_, ?_, ?_⟩
        · rw [h1]; omega
        · exact h2
        · exact lt_trans h3 h
    · simp only [cciGo, if_neg h]
      rcases ih (i + 1) best m with ⟨h1, h2⟩ | ⟨k, hk, h1, h2, h3⟩
      · exact Or.inl ⟨h1, h2⟩
      · refine Or.inr ⟨k + 1, Nat.succ_lt_succ hk, ?_, ?_, h3⟩
        · rw [h1]; omega
        · exact h2

/-- Tie-breaking: every scanned distance strictly before the returned index
is strictly above the returned minimum (the strict `<` update keeps the
first occurrence of the minimum). -/
theorem cciGo_first (ds : List ℤ) : ∀ (i best : Nat) (m : ℤ), best < i →
    ∀ (k : Nat) (hk : k < ds.length), i + k < (cciGo ds i best m).1 →
    (cciGo ds i best m).2 < ds.get ⟨k, hk⟩ := by
  induction ds with
  | nil => intro i best m _ k hk; exact absurd hk (Nat.not_lt_zero k)
  | cons d rest ih =>
    intro i best m hbi k hk hlt
    by_cases h : d < m
    · simp only [cciGo, if_pos h] at hlt ⊢
      match k with
      | 0 =>
        rcases cciGo_attained rest (i + 1) i d with ⟨h1, h2⟩ | ⟨k', hk', h1, h2, h3⟩
        · rw [h1] at hlt; omega
        · simpa using h3
      | k + 1 =>
        exact ih (i + 1) i d (Nat.lt_succ_self i) k (Nat.lt_of_succ_lt_succ hk)
          (by omega)
    · simp only [cciGo, if_neg h] at hlt ⊢
      match k with
      | 0 =>
        rcases cciGo_attained rest (i + 1) best m with ⟨h1, h2⟩ | ⟨k', hk', h1, h2, h3⟩
        · rw [h1] at hlt; omega
        · simpa using lt_of_lt_of_le h3 (not_lt.mp h)
      | k + 1 =>
        exact ih (i + 1) best m (by omega) k (Nat.lt_of_succ_lt_succ hk)
          (by omega)

/-- Squared distances are nonnegative. -/
theorem sqDist_nonneg (a b : Color) : 0 ≤ sqDist a b := by
  unfold sqDist
  positivity

/-- A squared distance vanishes exactly on equal color triples. -/
theorem sqDist_eq_zero_iff (a b : Color) : sqDist a b = 0 ↔ a = b := by
  unfold sqDist
  constructor
  · intro h
    have h1 : ((a.1 : ℤ) - b.1) = 0 := by
      nlinarith [sq_nonneg ((a.1 : ℤ) - b.1), sq_nonneg ((a.2.1 : ℤ) - b.2.1),
        sq_nonneg ((a.2.2 : ℤ) - b.2.2)]
    have h2 : ((a.2.1 : ℤ) - b.2.1) = 0 := by
      nlinarith [sq_nonneg ((a.1 : ℤ) - b.1), sq_nonneg ((a.2.1 : ℤ) - b.2.1),
        sq_nonneg ((a.2.2 : ℤ) - b.2.2)]
    have h3 : ((a.2.2 : ℤ) - b.2.2) = 0 := by
      nlinarith [sq_nonneg ((a.1 : ℤ) - b.1), sq_nonneg ((a.2.1 : ℤ) - b.2.1),
        sq_nonneg ((a.2.2 : ℤ) - b.2.2)]
    have e1 : a.1 = b.1 := by omega
    have e2 : a.2.1 = b.2.1 := by omega
    have e3 : a.2.2 = b.2.2 := by omega
    exact Prod.ext e1 (Prod.ext e2 e3)
  · intro h
    rw [h]
    ring

/-- The index returned on a nonempty reference list is in range. -/
theorem closest_color_index_lt (rgb : Color) (l : List Color) (hl : l ≠ []) :
    closest_color_index rgb l < l.length := by
  cases l with
  | nil => exact absurd rfl hl
  | cons c cs =>
    show (cciGo (cs.map (sqDist rgb)) 1 0 (sqDist rgb c)).1 < cs.length + 1
    rcases cciGo_attained (cs.map (sqDist rgb)) 1 0 (sqDist rgb c) with
      ⟨h1, _⟩ | ⟨k, hk, h1, _, _⟩
    · rw [h1]; exact Nat.succ_pos _
    · rw [h1]
      simp only [List.length_map] at hk
      omega

/-- The distance at the returned index is the loop's final minimum. -/
theorem closest_color_index_val (rgb : Color) (c : Color) (cs : List Color) :
    sqDist rgb ((c :: cs).get ⟨closest_color_index rgb (c :: cs),
        closest_color_index_lt rgb (c :: cs) (List.cons_ne_nil c cs)⟩) =
      (cciGo (cs.map (sqDist rgb)) 1 0 (sqDist rgb c)).2 := by
  have hcci : closest_color_index rgb (c :: cs) =
      (cciGo (cs.map (sqDist rgb)) 1 0 (sqDist rgb c)).1 := rfl
  rcases cciGo_attained (cs.map (sqDist rgb)) 1 0 (sqDist rgb c) with
    ⟨h1, h2⟩ | ⟨k, hk, h1, h2, _⟩
  · have hfin : (⟨closest_color_index rgb (c :: cs),
        closest_color_index_lt rgb (c :: cs) (List.cons_ne_nil c cs)⟩ :
          Fin (c :: cs).length) = ⟨0, Nat.succ_pos cs.length⟩ :=
      Fin.ext (by
        show closest_color_index rgb (c :: cs) = 0
        rw [hcci, h1])
    rw [hfin, h2]
    rfl
  · have hk' : k < cs.length := by simpa using hk
    have hfin : (⟨closest_color_index rgb (c :: cs),
        closest_color_index_lt rgb (c :: cs) (List.cons_ne_nil c cs)⟩ :
          Fin (c :: cs).length) = ⟨k + 1, Nat.succ_lt_succ hk'⟩ :=
      Fin.ext (by
        show closest_color_index rgb (c :: cs) = k + 1
        rw [hcci, h1]; omega)
    rw [hfin, h2]
    show sqDist rgb (cs.get ⟨k, hk'⟩) = (cs.map (sqDist rgb)).get ⟨k, hk⟩
    simp [List.get_eq_getElem, List.getElem_map]

/-- The returned index attains the minimum distance over the whole list. -/
theorem closest_color_index_min (rgb : Color) (l : List Color) (hl : l ≠ [])
    (j : Nat) (hj : j < l.length) :
    sqDist rgb (l.get ⟨closest_color_index rgb l,
        closest_color_index_lt rgb l hl⟩) ≤ sqDist rgb (l.get ⟨j, hj⟩) := by
  cases l with
  | nil => exact absurd rfl hl
  | cons c cs =>
    have hval := closest_color_index_val rgb c cs
    rw [show closest_color_index_lt rgb (c :: cs) hl =
      closest_color_index_lt rgb (c :: cs) (List.cons_ne_nil c cs) from rfl]
    rw [hval]
    match j with
    | 0 => exact cciGo_snd_le (cs.map (sqDist rgb)) 1 0 (sqDist rgb c)
    | j + 1 =>
      have hj' : j < cs.length := Nat.lt_of_succ_lt_succ hj
      have hjm : j < (cs.map (sqDist rgb)).length := by simpa using hj'
      have := cciGo_snd_le_get (cs.map (sqDist rgb)) 1 0 (sqDist rgb c) j hjm
      calc (cciGo (cs.map (sqDist rgb)) 1 0 (sqDist rgb c)).2
          ≤ (cs.map (sqDist rgb)).get ⟨j, hjm⟩ := this
        _ = sqDist rgb ((c :: cs).get ⟨j + 1, hj⟩) := by
            simp [List.get_eq_getElem, List.getElem_map]

/-- Strict tie-breaking: every index strictly before the returned one has a
strictly larger distance. -/
theorem closest_color_index_first (rgb : Color) (l : List Color) (hl : l ≠ [])
    (j : Nat) (hj : j < closest_color_index rgb l) (hjl : j < l.length) :
    sqDist rgb (l.get ⟨closest_color_index rgb l,
        closest_color_index_lt rgb l hl⟩) < sqDist rgb (l.get ⟨j, hjl⟩) := by
  cases l with
  | nil => exact absurd rfl hl
  | cons c cs =>
    have hval := closest_color_index_val rgb c cs
    rw [show closest_color_index_lt rgb (c :: cs) hl =
      closest_color_index_lt rgb (c :: cs) (List.cons_ne_nil c cs) from rfl]
    rw [hval]
    have hcci : closest_color_index rgb (c :: cs) =
        (cciGo (cs.map (sqDist rgb)) 1 0 (sqDist rgb c)).1 := rfl
    match j with
    | 0 =>
      rcases cciGo_attained (cs.map (sqDist rgb)) 1 0 (sqDist rgb c) with
        ⟨h1, _⟩ | ⟨k, hk, _, _, h3⟩
      · rw [hcci, h1] at hj
        exact absurd hj (Nat.not_lt_zero 0)
      · simpa using h3
    | j + 1 =>
      have hj' : j < cs.length := Nat.lt_of_succ_lt_succ hjl
      have hjm : j < (cs.map (sqDist rgb)).length := by simpa using hj'
      have h1k : 1 + j < (cciGo (cs.map (sqDist rgb)) 1 0 (sqDist rgb c)).1 := by
        rw [hcci] at hj
        omega
      have := cciGo_first (cs.map (sqDist rgb)) 1 0 (sqDist rgb c)
        Nat.zero_lt_one j hjm h1k
      calc (cciGo (cs.map (sqDist rgb)) 1 0 (sqDist rgb c)).2
          < (cs.map (sqDist rgb)).get ⟨j, hjm⟩ := this
        _ = sqDist rgb ((c :: cs).get ⟨j + 1, hjl⟩) := by
            simp [List.get_eq_getElem, List.getElem_map]

/-- Exact matches on a duplicate-free list resolve to the matching index. -/
theorem closest_color_index_exact (rgb : Color) (l : List Color)
    (hnd : l.Nodup) (j : Nat) (hj : j < l.length)
    (he : l.get ⟨j, hj⟩ = rgb) : closest_color_index rgb l = j := by
  have hl : l ≠ [] := by
    cases l with
    | nil => exact absurd hj (Nat.not_lt_zero j)
    | cons c cs => exact List.cons_ne_nil c cs
  have hi := closest_color_index_lt rgb l hl
  have hle := closest_color_index_min rgb l hl j hj
  have hz : sqDist rgb (l.get ⟨j, hj⟩) = 0 := by
    rw [he]
    exact (sqDist_eq_zero_iff rgb rgb).mpr rfl
  have hv : sqDist rgb (l.get ⟨closest_color_index rgb l, hi⟩) = 0 :=
    le_antisymm (hz ▸ hle) (sqDist_nonneg _ _)
  have hgi : rgb = l.get ⟨closest_color_index rgb l, hi⟩ :=
    (sqDist_eq_zero_iff _ _).mp hv
  have hgets : l.get ⟨closest_color_index rgb l, hi⟩ = l.get ⟨j, hj⟩ := by
    rw [← hgi, he]
  have := hnd.get_inj_iff.mp hgets
  exact congrArg Fin.val this

/-! ### Facts about the calibration table and the `get_values` loop -/

/-- Every calibration ramp is nonempty and pairs each reference color with
exactly one value. -/
theorem test_data_wf : ∀ p ∈ test_data,
    p.2.colors ≠ [] ∧ p.2.colors.length = p.2.values.length := by decide

/-- No calibration ramp repeats a reference color. -/
theorem test_data_ramps_nodup : ∀ p ∈ test_data, p.2.colors.Nodup := by decide

/-- The analyte names are pairwise distinct (so the Python dict and this
association list agree entry for entry). -/
theorem test_data_names_nodup : (test_data.map (fun p => p.1)).Nodup := by
  decide

/-- The loop body never raises: the resolved index is always inside the
value ramp. -/
theorem gv_entry_ok (i : Nat) (c : Band) : ∃ e, gv_entry i c = .ok e := by
  by_cases h : i < test_data.length
  · have hmem := List.get_mem test_data i h
    have hw := test_data_wf (test_data.get ⟨i, h⟩) hmem
    have hlt : closest_color_index c.rgb (test_data.get ⟨i, h⟩).2.colors <
        (test_data.get ⟨i, h⟩).2.colors.length :=
      closest_color_index_lt c.rgb _ hw.1
    have hlt2 : closest_color_index c.rgb (test_data.get ⟨i, h⟩).2.colors <
        (test_data.get ⟨i, h⟩).2.values.length := by
      rw [← hw.2]; exact hlt
    have hv : (test_data.get ⟨i, h⟩).2.values[closest_color_index c.rgb
        (test_data.get ⟨i, h⟩).2.colors]? =
        some ((test_data.get ⟨i, h⟩).2.values.get ⟨_, hlt2⟩) := by
      simp [List.getElem?_eq_getElem hlt2]
    refine ⟨((test_data.get ⟨i, h⟩).1,
      .num ((test_data.get ⟨i, h⟩).2.values.get ⟨_, hlt2⟩)), ?_⟩
    simp only [gv_entry, dif_pos h, map_to_value, hv]
  · exact ⟨("Extra " ++ toString (i + 1), .none), by
      simp only [gv_entry, dif_neg h]⟩

/-- What an in-range loop entry looks like: the analyte's name paired with
the calibration value at the resolved index. -/
theorem gv_entry_eq (i : Nat) (c : Band) (h : i < test_data.length) :
    ∃ hv : closest_color_index c.rgb (test_data.get ⟨i, h⟩).2.colors <
        (test_data.get ⟨i, h⟩).2.values.length,
      gv_entry i c = .ok ((test_data.get ⟨i, h⟩).1,
        .num ((test_data.get ⟨i, h⟩).2.values.get
          ⟨closest_color_index c.rgb (test_data.get ⟨i, h⟩).2.colors, hv⟩)) := by
  have hmem := List.get_mem test_data i h
  have hw := test_data_wf (test_data.get ⟨i, h⟩) hmem
  have hlt2 : closest_color_index c.rgb (test_data.get ⟨i, h⟩).2.colors <
      (test_data.get ⟨i, h⟩).2.values.length := by
    rw [← hw.2]; exact closest_color_index_lt c.rgb _ hw.1
  refine ⟨hlt2, ?_⟩
  have hv : (test_data.get ⟨i, h⟩).2.values[closest_color_index c.rgb
      (test_data.get ⟨i, h⟩).2.colors]? =
      some ((test_data.get ⟨i, h⟩).2.values.get ⟨_, hlt2⟩) := by
    simp [List.getElem?_eq_getElem hlt2]
  simp only [gv_entry, dif_pos h, map_to_value, hv]

/-- What an out-of-range loop entry looks like: the synthetic extra label
with a null value. -/
theorem gv_entry_extra (i : Nat) (c : Band) (h : ¬ i < test_data.length) :
    gv_entry i c = .ok ("Extra " ++ toString (i + 1), .none) := by
  simp only [gv_entry, dif_neg h]

/-- The loop never raises and produces one entry per band. -/
theorem gv_loop_ok (l : List Band) : ∀ i : Nat,
    ∃ r, gv_loop i l = .ok r ∧ r.length = l.length := by
  induction l with
  | nil => exact fun i => ⟨[], rfl, rfl⟩
  | cons c rest ih =>
    intro i
    obtain ⟨e, he⟩ := gv_entry_ok i c
    obtain ⟨r, hr, hlen⟩ := ih (i + 1)
    refine ⟨e :: r, ?_, by simpa using hlen⟩
    simp only [gv_loop, he, hr]

/-- Each result entry is the loop body applied at its position. -/
theorem gv_loop_get (l : List Band) : ∀ (i : Nat) (r : List (String × PyVal)),
    gv_loop i l = .ok r → ∀ (k : Nat) (hk : k < l.length),
    ∃ e, gv_entry (i + k) (l.get ⟨k, hk⟩) = .ok e ∧ r[k]? = some e := by
  induction l with
  | nil => intro i r _ k hk; exact absurd hk (Nat.not_lt_zero k)
  | cons c rest ih =>
    intro i r hr k hk
    rcases he : gv_entry i c with e | e
    · rw [gv_loop, he] at hr; exact absurd hr (by simp)
    · rcases hrest : gv_loop (i + 1) rest with r' | r'
      · rw [gv_loop, he, hrest] at hr; exact absurd hr (by simp)
      · rw [gv_loop, he, hrest] at hr
        have hr' : r = e :: r' := by
          cases hr; rfl
        subst hr'
        match k with
        | 0 => exact ⟨e, by simpa using he, by simp⟩
        | k + 1 =>
          obtain ⟨e', he', hr'⟩ := ih (i + 1) r' hrest k
            (Nat.lt_of_succ_lt_succ hk)
          refine ⟨e', ?_, by simpa using hr'⟩
          have : i + 1 + k = i + (k + 1) := by omega
          rw [← this]
          exact he'

/-- Reversal or not, the orientation step preserves the number of bands. -/
theorem gv_oriented_length (colors : List Band) :
    (gv_oriented colors).length = colors.length := by
  cases colors with
  | nil => rfl
  | cons c rest =>
    by_cases h : is_white_gray c.rgb 170
    · simp [gv_oriented, h]
    · simp [gv_oriented, h]

/-- The orientation step in terms of the first band. -/
theorem gv_oriented_head (colors : List Band) (c : Band)
    (h : colors.head? = some c) :
    gv_oriented colors =
      if is_white_gray c.rgb 170 then colors.reverse else colors := by
  cases colors with
  | nil => exact absurd h (by simp)
  | cons c' rest =>
    have : c' = c := by simpa using h
    subst this
    rfl

/-- The mutated list is always the oriented list without its last element
(trivially so for the empty list, which is returned before the pop). -/
theorem gv_mutated_eq (colors : List Band) :
    gv_mutated colors = (gv_oriented colors).dropLast := by
  cases colors with
  | nil => rfl
  | cons c rest => rfl

/-- The pop leaves one band fewer. -/
theorem gv_mutated_length (colors : List Band) (h : colors ≠ []) :
    (gv_mutated colors).length + 1 = colors.length := by
  cases colors with
  | nil => exact absurd rfl h
  | cons c rest =>
    show ((gv_oriented (c :: rest)).dropLast).length + 1 = rest.length + 1
    rw [List.length_dropLast, gv_oriented_length]
    simp

/-- On a nonempty list, `get_values` runs the loop on the mutated list. -/
theorem get_values_eq_loop (colors : List Band) (h : colors ≠ []) :
    get_values colors = gv_loop 0 (gv_mutated colors) := by
  cases colors with
  | nil => exact absurd rfl h
  | cons c rest => rfl

/-- `get_values` never raises and yields one entry per remaining band. -/
theorem get_values_ok (colors : List Band) :
    ∃ r, get_values colors = .ok r ∧ r.length = (gv_mutated colors).length := by
  cases colors with
  | nil => exact ⟨[], rfl, rfl⟩
  | cons c rest =>
    obtain ⟨r, hr, hlen⟩ := gv_loop_ok (gv_mutated (c :: rest)) 0
    refine ⟨r, ?_, hlen⟩
    rw [get_values_eq_loop (c :: rest) (List.cons_ne_nil c rest)]
    exact hr

/-- The `Nat` division `s / n` is the floor of the exact mean `s / n`:
`(s / n) * n ≤ s < (s / n + 1) * n`. -/
theorem nat_div_floor_bounds (s n : Nat) (hn : 0 < n) :
    s / n * n ≤ s ∧ s < (s / n + 1) * n := by
  constructor
  · exact Nat.div_mul_le_self s n
  · have h1 := Nat.div_add_mod s n
    have h2 := Nat.mod_lt s hn
    calc s = n * (s / n) + s % n := h1.symm
      _ < n * (s / n) + n := Nat.add_lt_add_left h2 _
      _ = (s / n + 1) * n := by ring

/-- Projecting the section index back out of the sampled band list recovers
the section list. -/
theorem band_map_section (l : List Nat) (f : Nat → Color) :
    (l.map (fun i => Band.mk i (f i))).map (fun b => b.sectionIdx) = l := by
  rw [List.map_map]
  exact List.map_id' l

/-! ### Claim theorems -/

/-- Claim C1.  The claim — `process_image` either returns a complete
analyte mapping or raises one of the defined error kinds, with no other
exception escaping, including on the cleanup path taken when an
intermediate stage fails — is violated by the code: whenever `crop_strip`
raises (here: no Hough main line was detected), the `finally` block's
`os.path.exists(cropped_path)` reads a local that was never assigned, so an
`UnboundLocalError` — not one of the defined error kinds — escapes,
replacing the in-flight `ValueError`. -/
theorem process_image_cleanup_unbound_local :
    process_image true CropOutcome.noMainLines LoadOutcome.decodeFail =
      .error (.unboundLocalError "cropped_path") ∧
    defined_error (.unboundLocalError "cropped_path") = false :=
  ⟨rfl, rfl⟩

/-- Claim C2: for every loadable rectified strip image, `get_colors`
returns exactly 17 band entries — one per section index 3, 6, …, 51 in
increasing top-to-bottom order — and `get_values` then discards exactly one
trailing element, leaving 16 bands (matching the 16-analyte calibration
table, whose length is also asserted here). -/
theorem get_colors_seventeen_bands :
    (∀ img : Image,
      (get_colors img).map (fun b => b.sectionIdx) =
        [3, 6, 9, 12, 15, 18, 21, 24, 27, 30, 33, 36, 39, 42, 45, 48, 51] ∧
      (get_colors img).length = 17) ∧
    test_data.length = 16 ∧
    (∀ colors : List Band, colors.length = 17 →
      (gv_mutated colors).length = 16 ∧
      ∃ r, get_values colors = .ok r ∧ r.length = 16) := by
  refine ⟨?_, rfl, ?_⟩
  · intro img
    constructor
    · have h := band_map_section (pyRange 3 (num_sections + 1) 3)
        (fun i => (get_band_color img ((i - 1) * (imgH img / num_sections))
          (min (i * (imgH img / num_sections)) (imgH img))
          (imgW img / 2) 15 240).1)
      have h2 : pyRange 3 (num_sections + 1) 3 =
          [3, 6, 9, 12, 15, 18, 21, 24, 27, 30, 33, 36, 39, 42, 45, 48, 51] := by
        decide
      rw [h2] at h
      exact h
    · have h3 := List.length_map (pyRange 3 (num_sections + 1) 3)
        (fun i => Band.mk i (get_band_color img
          ((i - 1) * (imgH img / num_sections))
          (min (i * (imgH img / num_sections)) (imgH img))
          (imgW img / 2) 15 240).1)
      exact h3.trans (by decide)
  · intro colors hlen
    have hne : colors ≠ [] := by
      intro h
      rw [h] at hlen
      exact absurd hlen (by decide)
    have hm := gv_mutated_length colors hne
    have hm16 : (gv_mutated colors).length = 16 := by omega
    obtain ⟨r, hr, hrlen⟩ := get_values_ok colors
    exact ⟨hm16, r, hr, by rw [hrlen, hm16]⟩

/-- Witness for C2 at the empty raster and a concrete 17-band list. -/
theorem get_colors_seventeen_bands_witness :
    ((get_colors []).map (fun b => b.sectionIdx) =
        [3, 6, 9, 12, 15, 18, 21, 24, 27, 30, 33, 36, 39, 42, 45, 48, 51] ∧
      (get_colors []).length = 17) ∧
    ((gv_mutated (List.replicate 17 (Band.mk 0 (0, 0, 0)))).length = 16 ∧
      ∃ r, get_values (List.replicate 17 (Band.mk 0 (0, 0, 0))) = .ok r ∧
        r.length = 16) :=
  ⟨get_colors_seventeen_bands.1 [],
   get_colors_seventeen_bands.2.2 (List.replicate 17 (Band.mk 0 (0, 0, 0)))
     (by decide)⟩

/-- Claim C3: on every RGB triple and nonempty reference list,
`closest_color_index` returns the smallest index attaining the minimum
squared Euclidean RGB distance (strictly smaller distances at no index, and
strictly larger distances at all earlier indices), the reported value is
the calibration value at that index, and the spec's concrete scenario
resolves to 10. -/
theorem closest_color_index_argmin :
    (∀ (rgb : Color) (l : List Color) (hl : l ≠ []),
      ∃ h : closest_color_index rgb l < l.length,
        (∀ (j : Nat) (hj : j < l.length),
          sqDist rgb (l.get ⟨closest_color_index rgb l, h⟩) ≤
            sqDist rgb (l.get ⟨j, hj⟩)) ∧
        (∀ (j : Nat) (hj : j < closest_color_index rgb l),
          sqDist rgb (l.get ⟨closest_color_index rgb l, h⟩) <
            sqDist rgb (l.get ⟨j, Nat.lt_trans hj h⟩))) ∧
    (∀ (index : Nat) (values_list : List ℚ),
      map_to_value index values_list = values_list[index]?) ∧
    map_to_value
      (closest_color_index (250, 10, 5) [(255, 0, 0), (0, 255, 0), (0, 0, 255)])
      [10, 5, 0] = some 10 := by
  refine ⟨?_, fun _ _ => rfl, by decide⟩
  intro rgb l hl
  refine ⟨closest_color_index_lt rgb l hl, ?_, ?_⟩
  · intro j hj
    exact closest_color_index_min rgb l hl j hj
  · intro j hj
    exact closest_color_index_first rgb l hl j hj
      (Nat.lt_trans hj (closest_color_index_lt rgb l hl))

/-- Witness for C3 at the spec's concrete scenario. -/
theorem closest_color_index_argmin_witness :
    (∃ h : closest_color_index (250, 10, 5)
        [(255, 0, 0), (0, 255, 0), (0, 0, 255)] < 3,
      (∀ (j : Nat) (hj : j < 3),
        sqDist (250, 10, 5)
            ([(255, 0, 0), (0, 255, 0), (0, 0, 255)].get
              ⟨closest_color_index (250, 10, 5)
                [(255, 0, 0), (0, 255, 0), (0, 0, 255)], h⟩) ≤
          sqDist (250, 10, 5)
            ([(255, 0, 0), (0, 255, 0), (0, 0, 255)].get ⟨j, hj⟩)) ∧
      (∀ (j : Nat) (hj : j < closest_color_index (250, 10, 5)
          [(255, 0, 0), (0, 255, 0), (0, 0, 255)]),
        sqDist (250, 10, 5)
            ([(255, 0, 0), (0, 255, 0), (0, 0, 255)].get
              ⟨closest_color_index (250, 10, 5)
                [(255, 0, 0), (0, 255, 0), (0, 0, 255)], h⟩) <
          sqDist (250, 10, 5)
            ([(255, 0, 0), (0, 255, 0), (0, 0, 255)].get ⟨j, Nat.lt_trans hj h⟩))) ∧
    map_to_value
      (closest_color_index (250, 10, 5) [(255, 0, 0), (0, 255, 0), (0, 0, 255)])
      [10, 5, 0] = some 10 :=
  ⟨closest_color_index_argmin.1 (250, 10, 5)
      [(255, 0, 0), (0, 255, 0), (0, 0, 255)] (by decide),
   closest_color_index_argmin.2.2⟩

/-- Claim C4: for every band-color sequence whose last element is
white/gray and whose first element is not, `get_values` on the reversed
sequence yields the same analyte mapping as `get_values` on the original
(the orientation check re-reverses the flipped sequence before the pop). -/
theorem get_values_reverse_invariant (colors : List Band) (c w : Band)
    (hhead : colors.head? = some c) (hlast : colors.getLast? = some w)
    (hw : is_white_gray w.rgb 170 = true)
    (hc : is_white_gray c.rgb 170 = false) :
    get_values colors.reverse = get_values colors := by
  have hne : colors ≠ [] := by
    intro h
    rw [h] at hhead
    exact absurd hhead (by simp)
  have hrne : colors.reverse ≠ [] := by
    intro h
    exact hne (by simpa using congrArg List.reverse h)
  have hrhead : colors.reverse.head? = some w := by
    rw [List.head?_reverse]
    exact hlast
  have ho1 : gv_oriented colors.reverse = colors := by
    rw [gv_oriented_head colors.reverse w hrhead, if_pos hw,
      List.reverse_reverse]
  have ho2 : gv_oriented colors = colors := by
    rw [gv_oriented_head colors c hhead, if_neg (by simp [hc])]
  have hm1 : gv_mutated colors.reverse = colors.dropLast := by
    rw [gv_mutated_eq, ho1]
  have hm2 : gv_mutated colors = colors.dropLast := by
    rw [gv_mutated_eq, ho2]
  rw [get_values_eq_loop colors hne, get_values_eq_loop colors.reverse hrne,
    hm1, hm2]

/-- Witness for C4 at a concrete two-band sequence. -/
theorem get_values_reverse_invariant_witness :
    get_values ([Band.mk 3 (0, 0, 0), Band.mk 6 (200, 200, 200)].reverse) =
      get_values [Band.mk 3 (0, 0, 0), Band.mk 6 (200, 200, 200)] :=
  get_values_reverse_invariant
    [Band.mk 3 (0, 0, 0), Band.mk 6 (200, 200, 200)]
    (Band.mk 3 (0, 0, 0)) (Band.mk 6 (200, 200, 200))
    rfl rfl (by decide) (by decide)

/-- Claim C5: `get_values` never raises an `IndexError` on any band-color
sequence — short sequences simply leave the remaining analytes' names
absent from the result, and every band beyond the 16 known analytes yields
an entry keyed `Extra (i+1)` with a null value. -/
theorem get_values_total_and_extras (colors : List Band) :
    ∃ r, get_values colors = .ok r ∧
      r.length = (gv_mutated colors).length ∧
      (∀ (k : Nat), k < r.length → test_data.length ≤ k →
        r[k]? = some ("Extra " ++ toString (k + 1), PyVal.none)) ∧
      (∀ (iA : Nat) (hA : iA < test_data.length), r.length ≤ iA →
        ∀ p ∈ r, p.1 ≠ (test_data.get ⟨iA, hA⟩).1) := by
  obtain ⟨r, hr, hrlen⟩ := get_values_ok colors
  have hloop : gv_loop 0 (gv_mutated colors) = .ok r := by
    cases colors with
    | nil =>
      have : r = [] := by
        have : Except.ok (ε := String) r = .ok ([] : List (String × PyVal)) :=
          hr ▸ rfl
        simpa using this.symm
      rw [this]
      rfl
    | cons c rest =>
      rw [← get_values_eq_loop (c :: rest) (List.cons_ne_nil c rest)]
      exact hr
  refine ⟨r, hr, hrlen, ?_, ?_⟩
  · intro k hk hk16
    have hkm : k < (gv_mutated colors).length := by rw [← hrlen]; exact hk
    obtain ⟨e, he, hre⟩ := gv_loop_get (gv_mutated colors) 0 r hloop k hkm
    rw [Nat.zero_add] at he
    rw [gv_entry_extra k _ (by omega)] at he
    rw [hre]
    exact congrArg some (Except.ok.inj he).symm
  · intro iA hA hle p hp
    obtain ⟨⟨k, hk⟩, hpk⟩ := List.mem_iff_get.mp hp
    have hkm : k < (gv_mutated colors).length := by rw [← hrlen]; exact hk
    obtain ⟨e, he, hre⟩ := gv_loop_get (gv_mutated colors) 0 r hloop k hkm
    rw [Nat.zero_add] at he
    have hk16 : k < test_data.length := by omega
    obtain ⟨hv, heq⟩ := gv_entry_eq k ((gv_mutated colors).get ⟨k, hkm⟩) hk16
    rw [heq] at he
    have hpe : p = e := by
      have : r[k]? = some p := by
        rw [← hpk]
        simp [List.getElem?_eq_getElem hk, List.get_eq_getElem]
      rw [this] at hre
      exact Option.some.inj hre.symm |>.symm
    have hpname : p.1 = (test_data.get ⟨k, hk16⟩).1 := by
      rw [hpe, ← Except.ok.inj he]
    rw [hpname]
    intro hcontra
    have hni : k ≠ iA := by omega
    have hmapk : (test_data.map (fun p => p.1)).get
        ⟨k, by simpa using hk16⟩ = (test_data.get ⟨k, hk16⟩).1 := by
      simp [List.get_eq_getElem, List.getElem_map]
    have hmapi : (test_data.map (fun p => p.1)).get
        ⟨iA, by simpa using hA⟩ = (test_data.get ⟨iA, hA⟩).1 := by
      simp [List.get_eq_getElem, List.getElem_map]
    have : (⟨k, by simpa using hk16⟩ : Fin (test_data.map (fun p => p.1)).length) =
        ⟨iA, by simpa using hA⟩ :=
      test_data_names_nodup.get_inj_iff.mp (by rw [hmapk, hmapi]; exact hcontra)
    exact hni (congrArg Fin.val this)

/-- Witness for C5 at an 18-band sequence: the loop returns, and position
16 is the synthetic `Extra 17` null entry. -/
theorem get_values_total_and_extras_witness :
    ∃ r, get_values (List.replicate 18 (Band.mk 0 (0, 0, 0))) = .ok r ∧
      r.length = (gv_mutated (List.replicate 18 (Band.mk 0 (0, 0, 0)))).length ∧
      r[16]? = some ("Extra " ++ toString 17, PyVal.none) := by
  obtain ⟨r, hr, hrlen, hextra, _⟩ :=
    get_values_total_and_extras (List.replicate 18 (Band.mk 0 (0, 0, 0)))
  refine ⟨r, hr, hrlen, ?_⟩
  have h17 : (gv_mutated (List.replicate 18 (Band.mk 0 (0, 0, 0)))).length = 17 := by
    decide
  exact hextra 16 (by omega) (by decide)

/-- Claim C6: when the band region is nonempty but every pixel has some
channel at or above the white threshold (so the qualifying-pixel mask is
empty), `get_band_color` returns the pure-white sentinel with the band
rectangle instead of failing. -/
theorem get_band_color_white_sentinel (image : Image)
    (y_start y_end center_x band_width white_thresh : Nat)
    (hne : bandPixels image y_start y_end (band_x_start center_x band_width)
      (band_x_end (imgW image) center_x band_width) ≠ [])
    (hall : ∀ p ∈ bandPixels image y_start y_end
        (band_x_start center_x band_width)
        (band_x_end (imgW image) center_x band_width),
      belowThresh white_thresh (bgrToRgb p) = false) :
    get_band_color image y_start y_end center_x band_width white_thresh =
      ((255, 255, 255), (band_x_start center_x band_width, y_start,
        band_x_end (imgW image) center_x band_width, y_end)) := by
  have hq : qualifying image y_start y_end center_x band_width white_thresh
      = [] := by
    apply List.filter_eq_nil_iff.mpr
    intro c hc
    obtain ⟨p, hp, hcp⟩ := List.mem_map.mp hc
    rw [← hcp]
    simp [hall p hp]
  simp only [get_band_color]
  rw [if_neg hne, hq]
  simp

/-- Witness for C6 at a one-pixel all-bright band. -/
theorem get_band_color_white_sentinel_witness :
    get_band_color [[(250, 250, 250)]] 0 1 0 15 240 =
      ((255, 255, 255), (band_x_start 0 15, 0,
        band_x_end (imgW [[(250, 250, 250)]]) 0 15, 1)) :=
  get_band_color_white_sentinel [[(250, 250, 250)]] 0 1 0 15 240
    (by decide) (by decide)

/-- Claim C7: if the band paired with analyte `i` carries a color exactly
equal to the `j`-th reference color of that analyte's ramp, `get_values`
reports for that analyte precisely the calibration value at index `j`
(the zero-distance match wins, and the ramps are duplicate-free). -/
theorem get_values_exact_match (colors : List Band) (i j : Nat)
    (hi : i < test_data.length) (c : Band)
    (hc : (gv_mutated colors)[i]? = some c)
    (hj : (test_data.get ⟨i, hi⟩).2.colors[j]? = some c.rgb) :
    ∃ r v, get_values colors = .ok r ∧
      (test_data.get ⟨i, hi⟩).2.values[j]? = some v ∧
      r[i]? = some ((test_data.get ⟨i, hi⟩).1, PyVal.num v) := by
  have him : i < (gv_mutated colors).length := (List.getElem?_eq_some.mp hc).1
  have hne : colors ≠ [] := by
    intro h
    rw [h] at him
    exact Nat.not_lt_zero i him
  obtain ⟨r, hr, hrlen⟩ := get_values_ok colors
  have hloop : gv_loop 0 (gv_mutated colors) = .ok r := by
    rw [← get_values_eq_loop colors hne]
    exact hr
  obtain ⟨e, he, hre⟩ := gv_loop_get (gv_mutated colors) 0 r hloop i him
  rw [Nat.zero_add] at he
  have hgc : (gv_mutated colors).get ⟨i, him⟩ = c := by
    have h1 : (gv_mutated colors)[i]? =
        some ((gv_mutated colors).get ⟨i, him⟩) := by
      simp [List.getElem?_eq_getElem him, List.get_eq_getElem]
    rw [h1] at hc
    exact Option.some.inj hc
  rw [hgc] at he
  obtain ⟨hv, heq⟩ := gv_entry_eq i c hi
  rw [heq] at he
  have hjlen : j < (test_data.get ⟨i, hi⟩).2.colors.length :=
    (List.getElem?_eq_some.mp hj).1
  have hjget : (test_data.get ⟨i, hi⟩).2.colors.get ⟨j, hjlen⟩ = c.rgb := by
    have h1 : (test_data.get ⟨i, hi⟩).2.colors[j]? =
        some ((test_data.get ⟨i, hi⟩).2.colors.get ⟨j, hjlen⟩) := by
      simp [List.getElem?_eq_getElem hjlen, List.get_eq_getElem]
    rw [h1] at hj
    exact Option.some.inj hj
  have hnd := test_data_ramps_nodup _ (List.get_mem test_data i hi)
  have hcci : closest_color_index c.rgb (test_data.get ⟨i, hi⟩).2.colors = j :=
    closest_color_index_exact c.rgb _ hnd j hjlen hjget
  have hjv : j < (test_data.get ⟨i, hi⟩).2.values.length := by
    rw [← (test_data_wf _ (List.get_mem test_data i hi)).2]
    exact hjlen
  refine ⟨r, (test_data.get ⟨i, hi⟩).2.values.get ⟨j, hjv⟩, hr, ?_, ?_⟩
  · simp [List.getElem?_eq_getElem hjv, List.get_eq_getElem]
  · rw [hre, ← Except.ok.inj he]
    have hfin : (⟨closest_color_index c.rgb (test_data.get ⟨i, hi⟩).2.colors,
        hv⟩ : Fin (test_data.get ⟨i, hi⟩).2.values.length) = ⟨j, hjv⟩ :=
      Fin.ext hcci
    rw [hfin]

/-- Witness for C7: a band colored exactly like the first Total Alkalinity
reference resolves to 240. -/
theorem get_values_exact_match_witness :
    ∃ r v, get_values [Band.mk 3 (40, 79, 58), Band.mk 6 (0, 0, 0)] = .ok r ∧
      (test_data.get ⟨0, by decide⟩).2.values[0]? = some v ∧
      r[0]? = some ((test_data.get ⟨0, by decide⟩).1, PyVal.num v) :=
  get_values_exact_match [Band.mk 3 (40, 79, 58), Band.mk 6 (0, 0, 0)] 0 0
    (by decide) (Band.mk 3 (40, 79, 58)) (by decide) (by decide)

/-- Counterexample to claim C8 as stated.  Three qualifying pixels with
blue values 1, 2, 2 have blue-channel mean 5/3; the nearest integer is 2
(round-half-up gives 2, and `|3·2 - 5| = 1 < 2 = |3·1 - 5|` shows 2 is
strictly nearer than the code's answer), but `int(np.mean(...))` truncates
and the code reports blue channel 1, so the channels are not the mean
rounded to the nearest integer. -/
theorem get_band_color_round_counterexample :
    (get_band_color [[(1, 0, 0), (2, 0, 0), (2, 0, 0)]] 0 1 0 15 240).1 =
      (0, 0, 1) ∧
    sumB (qualifying [[(1, 0, 0), (2, 0, 0), (2, 0, 0)]] 0 1 0 15 240) = 5 ∧
    (qualifying [[(1, 0, 0), (2, 0, 0), (2, 0, 0)]] 0 1 0 15 240).length = 3 ∧
    round_nearest 5 3 = 2 ∧
    (5 : ℤ) - 3 * 2 = -1 ∧ (5 : ℤ) - 3 * 1 = 2 ∧
    ((0, 0, 1) : Color) ≠ (0, 0, round_nearest 5 3) := by
  exact ⟨by decide, by decide, by decide, by decide, by decide, by decide,
    by decide⟩

/-- Claim C8 (amended): for every band region with at least one qualifying
pixel, each channel of the representative color is the arithmetic mean of
the qualifying pixels' channel values truncated toward zero (the floor,
since the data is nonnegative) — characterized by
`channel * count ≤ channel_sum < (channel + 1) * count` — rather than the
mean rounded to the nearest integer. -/
theorem get_band_color_mean_floor (image : Image)
    (y_start y_end center_x band_width white_thresh : Nat)
    (h : qualifying image y_start y_end center_x band_width white_thresh
      ≠ []) :
    ((get_band_color image y_start y_end center_x band_width white_thresh).1.1 *
        (qualifying image y_start y_end center_x band_width white_thresh).length ≤
      sumR (qualifying image y_start y_end center_x band_width white_thresh) ∧
      sumR (qualifying image y_start y_end center_x band_width white_thresh) <
        ((get_band_color image y_start y_end center_x band_width white_thresh).1.1 + 1) *
          (qualifying image y_start y_end center_x band_width white_thresh).length) ∧
    ((get_band_color image y_start y_end center_x band_width white_thresh).1.2.1 *
        (qualifying image y_start y_end center_x band_width white_thresh).length ≤
      sumG (qualifying image y_start y_end center_x band_width white_thresh) ∧
      sumG (qualifying image y_start y_end center_x band_width white_thresh) <
        ((get_band_color image y_start y_end center_x band_width white_thresh).1.2.1 + 1) *
          (qualifying image y_start y_end center_x band_width white_thresh).length) ∧
    ((get_band_color image y_start y_end center_x band_width white_thresh).1.2.2 *
        (qualifying image y_start y_end center_x band_width white_thresh).length ≤
      sumB (qualifying image y_start y_end center_x band_width white_thresh) ∧
      sumB (qualifying image y_start y_end center_x band_width white_thresh) <
        ((get_band_color image y_start y_end center_x band_width white_thresh).1.2.2 + 1) *
          (qualifying image y_start y_end center_x band_width white_thresh).length) := by
  have hband : bandPixels image y_start y_end
      (band_x_start center_x band_width)
      (band_x_end (imgW image) center_x band_width) ≠ [] := by
    intro hb
    apply h
    unfold qualifying
    rw [hb]
    rfl
  have hgbc : (get_band_color image y_start y_end center_x band_width
      white_thresh).1 =
      (sumR (qualifying image y_start y_end center_x band_width white_thresh) /
        (qualifying image y_start y_end center_x band_width white_thresh).length,
       sumG (qualifying image y_start y_end center_x band_width white_thresh) /
        (qualifying image y_start y_end center_x band_width white_thresh).length,
       sumB (qualifying image y_start y_end center_x band_width white_thresh) /
        (qualifying image y_start y_end center_x band_width white_thresh).length) := by
    simp only [get_band_color]
    rw [if_neg hband, if_neg h]
  have hn : 0 < (qualifying image y_start y_end center_x band_width
      white_thresh).length := List.length_pos.mpr h
  rw [hgbc]
  exact ⟨nat_div_floor_bounds _ _ hn, nat_div_floor_bounds _ _ hn,
    nat_div_floor_bounds _ _ hn⟩

/-- Witness for the amended C8 at the counterexample band. -/
theorem get_band_color_mean_floor_witness :
    ((get_band_color [[(1, 0, 0), (2, 0, 0), (2, 0, 0)]] 0 1 0 15 240).1.1 *
        (qualifying [[(1, 0, 0), (2, 0, 0), (2, 0, 0)]] 0 1 0 15 240).length ≤
      sumR (qualifying [[(1, 0, 0), (2, 0, 0), (2, 0, 0)]] 0 1 0 15 240) ∧
      sumR (qualifying [[(1, 0, 0), (2, 0, 0), (2, 0, 0)]] 0 1 0 15 240) <
        ((get_band_color [[(1, 0, 0), (2, 0, 0), (2, 0, 0)]] 0 1 0 15 240).1.1 + 1) *
          (qualifying [[(1, 0, 0), (2, 0, 0), (2, 0, 0)]] 0 1 0 15 240).length) ∧
    ((get_band_color [[(1, 0, 0), (2, 0, 0), (2, 0, 0)]] 0 1 0 15 240).1.2.1 *
        (qualifying [[(1, 0, 0), (2, 0, 0), (2, 0, 0)]] 0 1 0 15 240).length ≤
      sumG (qualifying [[(1, 0, 0), (2, 0, 0), (2, 0, 0)]] 0 1 0 15 240) ∧
      sumG (qualifying [[(1, 0, 0), (2, 0, 0), (2, 0, 0)]] 0 1 0 15 240) <
        ((get_band_color [[(1, 0, 0), (2, 0, 0), (2, 0, 0)]] 0 1 0 15 240).1.2.1 + 1) *
          (qualifying [[(1, 0, 0), (2, 0, 0), (2, 0, 0)]] 0 1 0 15 240).length) ∧
    ((get_band_color [[(1, 0, 0), (2, 0, 0), (2, 0, 0)]] 0 1 0 15 240).1.2.2 *
        (qualifying [[(1, 0, 0), (2, 0, 0), (2, 0, 0)]] 0 1 0 15 240).length ≤
      sumB (qualifying [[(1, 0, 0), (2, 0, 0), (2, 0, 0)]] 0 1 0 15 240) ∧
      sumB (qualifying [[(1, 0, 0), (2, 0, 0), (2, 0, 0)]] 0 1 0 15 240) <
        ((get_band_color [[(1, 0, 0), (2, 0, 0), (2, 0, 0)]] 0 1 0 15 240).1.2.2 + 1) *
          (qualifying [[(1, 0, 0), (2, 0, 0), (2, 0, 0)]] 0 1 0 15 240).length) :=
  get_band_color_mean_floor [[(1, 0, 0), (2, 0, 0), (2, 0, 0)]] 0 1 0 15 240
    (by decide)

/-- Counterexample to claim C9 as stated: on a singleton input the first
call empties the list and returns the empty mapping, and a second call on
the now-empty list returns the very same result — not a different one. -/
theorem get_values_second_call_counterexample :
    get_values [Band.mk 3 (0, 0, 0)] = .ok [] ∧
    gv_mutated [Band.mk 3 (0, 0, 0)] = [] ∧
    get_values (gv_mutated [Band.mk 3 (0, 0, 0)]) =
      get_values [Band.mk 3 (0, 0, 0)] := by
  exact ⟨by decide, by decide, by decide⟩

/-- Claim C9 (amended): `get_values` mutates the caller's list in place —
reversing it when the first band is white/gray and always removing the last
element of every non-empty input, so the list ends one element shorter —
and a second call on the mutated list yields a different (one entry
shorter) result whenever the original list had at least two elements; for
a singleton input both calls return the empty mapping. -/
theorem get_values_mutates_list (colors : List Band) (h : colors ≠ []) :
    (gv_mutated colors).length + 1 = colors.length ∧
    (∀ c : Band, colors.head? = some c → is_white_gray c.rgb 170 = true →
      gv_mutated colors = colors.reverse.dropLast) ∧
    (2 ≤ colors.length →
      ∃ r1 r2, get_values colors = .ok r1 ∧
        get_values (gv_mutated colors) = .ok r2 ∧
        r1.length = colors.length - 1 ∧ r2.length = colors.length - 2 ∧
        r1 ≠ r2) := by
  refine ⟨gv_mutated_length colors h, ?_, ?_⟩
  · intro c hhead hwhite
    rw [gv_mutated_eq, gv_oriented_head colors c hhead, if_pos hwhite]
  · intro h2
    obtain ⟨r1, hr1, hl1⟩ := get_values_ok colors
    obtain ⟨r2, hr2, hl2⟩ := get_values_ok (gv_mutated colors)
    have hm1 := gv_mutated_length colors h
    have hmne : gv_mutated colors ≠ [] := by
      intro he
      rw [he] at hm1
      simp at hm1
      omega
    have hm2 := gv_mutated_length (gv_mutated colors) hmne
    refine ⟨r1, r2, hr1, hr2, by omega, by omega, ?_⟩
    intro heq
    rw [heq] at hl1
    omega

/-- Witness for the amended C9 at a concrete two-band list whose first band
is white/gray. -/
theorem get_values_mutates_list_witness :
    (gv_mutated [Band.mk 3 (200, 200, 200), Band.mk 6 (0, 0, 0)]).length + 1 =
      2 ∧
    gv_mutated [Band.mk 3 (200, 200, 200), Band.mk 6 (0, 0, 0)] =
      ([Band.mk 3 (200, 200, 200), Band.mk 6 (0, 0, 0)].reverse).dropLast ∧
    (∃ r1 r2,
      get_values [Band.mk 3 (200, 200, 200), Band.mk 6 (0, 0, 0)] = .ok r1 ∧
      get_values (gv_mutated [Band.mk 3 (200, 200, 200), Band.mk 6 (0, 0, 0)]) =
        .ok r2 ∧
      r1.length = 2 - 1 ∧ r2.length = 2 - 2 ∧ r1 ≠ r2) := by
  obtain ⟨h1, h2, h3⟩ := get_values_mutates_list
    [Band.mk 3 (200, 200, 200), Band.mk 6 (0, 0, 0)] (by decide)
  exact ⟨h1, h2 (Band.mk 3 (200, 200, 200)) rfl (by decide), h3 (by decide)⟩

/-- Claim C10: a band whose extracted region holds zero pixels yields black
`(0,0,0)` with the band rectangle (not the white sentinel) and no error;
in particular, on a rectified strip shorter than 52 pixels every section
height is 0, every band region is empty, and `get_colors` still produces
all 17 band entries, each black. -/
theorem get_band_color_empty_black :
    (∀ (image : Image) (y_start y_end center_x band_width white_thresh : Nat),
      bandPixels image y_start y_end (band_x_start center_x band_width)
        (band_x_end (imgW image) center_x band_width) = [] →
      get_band_color image y_start y_end center_x band_width white_thresh =
        ((0, 0, 0), (band_x_start center_x band_width, y_start,
          band_x_end (imgW image) center_x band_width, y_end))) ∧
    (∀ image : Image, imgH image < num_sections →
      (get_colors image).length = 17 ∧
      ∀ b ∈ get_colors image, b.rgb = (0, 0, 0)) := by
  constructor
  · intro image y_start y_end center_x band_width white_thresh hbp
    simp only [get_band_color]
    rw [if_pos hbp]
  · intro image hshort
    have hsh : imgH image / num_sections = 0 := Nat.div_eq_of_lt hshort
    constructor
    · have h3 := List.length_map (pyRange 3 (num_sections + 1) 3)
        (fun i => Band.mk i (get_band_color image
          ((i - 1) * (imgH image / num_sections))
          (min (i * (imgH image / num_sections)) (imgH image))
          (imgW image / 2) 15 240).1)
      exact h3.trans (by decide)
    · intro b hb
      simp only [get_colors] at hb
      obtain ⟨i, hi, hbi⟩ := List.mem_map.mp hb
      rw [← hbi]
      show (get_band_color image ((i - 1) * (imgH image / num_sections))
        (min (i * (imgH image / num_sections)) (imgH image))
        (imgW image / 2) 15 240).1 = (0, 0, 0)
      rw [hsh, Nat.mul_zero, Nat.mul_zero, Nat.zero_min]
      have hbp : bandPixels image 0 0 (band_x_start (imgW image / 2) 15)
          (band_x_end (imgW image) (imgW image / 2) 15) = [] := by
        unfold bandPixels pySlice
        simp
      simp only [get_band_color]
      rw [if_pos hbp]

/-- Witness for C10 at a concrete one-pixel-row raster (height 1 < 52). -/
theorem get_band_color_empty_black_witness :
    (get_band_color [[(9, 9, 9)]] 0 0 0 15 240 =
      ((0, 0, 0), (band_x_start 0 15, 0,
        band_x_end (imgW [[(9, 9, 9)]]) 0 15, 0))) ∧
    ((get_colors [[(9, 9, 9)]]).length = 17 ∧
      ∀ b ∈ get_colors [[(9, 9, 9)]], b.rgb = (0, 0, 0)) :=
  ⟨get_band_color_empty_black.1 [[(9, 9, 9)]] 0 0 0 15 240 (by decide),
   get_band_color_empty_black.2 [[(9, 9, 9)]] (by decide)⟩

end Strips
